import Mathlib

/-!
Verification development for the fastnear compact indexer
(source files src/bin/ft_red.rs and src/bin/balances_backfill.rs).

The Redis store and the pipelined command lists built by the two
binaries are modelled explicitly; the extractors, the commit
construction, the startup resume check, the reader retry loop and the
backfill batching are translated from the source.  The repository
modules click, common, redis_db and rpc are not among the sources;
the shapes they provide (row types, the store protocol, the RPC
task/result pairing) are modelled from the specification, as noted on
each such definition.
-/

namespace Indexer

/-- Modelled from the spec (section 6, store mutation protocol; the
redis_db module is not among the sources): a store command is one of
the redis commands the two binaries put into their commit pipelines.
hset writes every listed field unconditionally (set-or-overwrite),
hsetnx writes one field only when it is absent (set-if-absent), and
set writes a plain scalar key - only the checkpoint marker is ever
written there, and it is sent as an integer. -/
inductive RCmd where
  | hset (key : String) (fields : List (String × String))
  | hsetnx (key : String) (field : String) (value : String)
  | set (key : String) (value : Nat)
  deriving DecidableEq

/-- Modelled from the spec (section 3, StoreRecord and
CheckpointMarker): the visible state of the key-value store - hash
keys holding string fields, plus plain scalar keys. -/
structure RStore where
  hashes : String → String → Option String
  scalars : String → Option Nat

/-- Point update of one hash field. -/
def setField (h : String → String → Option String) (k f v : String) :
    String → String → Option String :=
  fun k' f' => if k' = k ∧ f' = f then some v else h k' f'

/-- Modelled from the spec (section 6): the effect of one redis
command on the store. -/
def RStore.applyCmd (s : RStore) : RCmd → RStore
  | .hset k fields =>
      { s with hashes := fields.foldl (fun h fv => setField h k fv.1 fv.2) s.hashes }
  | .hsetnx k f v =>
      { s with hashes := if (s.hashes k f).isSome then s.hashes else setField s.hashes k f v }
  | .set k n =>
      { s with scalars := fun k' => if k' = k then some n else s.scalars k' }

/-- Modelled from the spec (section 6): a pipeline request is executed
as one atomic command list, command by command, in one round trip. -/
def runPipe (p : List RCmd) (s : RStore) : RStore :=
  p.foldl RStore.applyCmd s

lemma RStore.eq_of (s t : RStore) (hh : s.hashes = t.hashes)
    (hs : s.scalars = t.scalars) : s = t := by
  cases s; cases t; simp_all

/-- Elementary effect of a command on one store field: an
unconditional write (set-or-overwrite) or a write-if-absent
(set-if-absent). -/
inductive FieldOp (α : Type) where
  | write (v : α)
  | writeIfAbsent (v : α)
  deriving DecidableEq

def applyFieldOp {α : Type} (x : Option α) : FieldOp α → Option α
  | .write v => some v
  | .writeIfAbsent v => if x.isSome then x else some v

def applyFieldOps {α : Type} (ops : List (FieldOp α)) (x : Option α) : Option α :=
  ops.foldl applyFieldOp x

lemma applyFieldOps_append {α : Type} (a b : List (FieldOp α)) (x : Option α) :
    applyFieldOps (a ++ b) x = applyFieldOps b (applyFieldOps a x) := by
  simp [applyFieldOps, List.foldl_append]

lemma applyFieldOp_isSome {α : Type} (x : Option α) (o : FieldOp α)
    (hx : x.isSome = true) : (applyFieldOp x o).isSome = true := by
  cases o with
  | write v => rfl
  | writeIfAbsent v => simp [applyFieldOp, hx]

lemma applyFieldOps_isSome {α : Type} (ops : List (FieldOp α)) (x : Option α)
    (hx : x.isSome = true) : (applyFieldOps ops x).isSome = true := by
  induction ops generalizing x with
  | nil => exact hx
  | cons o rest ih =>
      simp only [applyFieldOps, List.foldl_cons] at *
      exact ih (applyFieldOp x o) (applyFieldOp_isSome x o hx)

lemma applyFieldOp_of_isSome {α : Type} (x : Option α) (v : α)
    (hx : x.isSome = true) : applyFieldOp x (FieldOp.writeIfAbsent v) = x := by
  cases x with
  | none => simp at hx
  | some a => simp [applyFieldOp]

lemma applyFieldOps_idem {α : Type} (ops : List (FieldOp α)) (x : Option α) :
    applyFieldOps ops (applyFieldOps ops x) = applyFieldOps ops x := by
  induction ops generalizing x with
  | nil => rfl
  | cons o rest ih =>
      cases o with
      | write v =>
          simp only [applyFieldOps, List.foldl_cons]
          have h1 : applyFieldOp x (FieldOp.write v) = some v := rfl
          have h2 : applyFieldOp (List.foldl applyFieldOp (applyFieldOp x (FieldOp.write v)) rest)
              (FieldOp.write v) = some v := rfl
          rw [h2, h1]
      | writeIfAbsent v =>
          simp only [applyFieldOps, List.foldl_cons]
          have hy : (applyFieldOp x (FieldOp.writeIfAbsent v)).isSome = true := by
            cases x <;> simp [applyFieldOp]
          have hr : (List.foldl applyFieldOp (applyFieldOp x (FieldOp.writeIfAbsent v)) rest).isSome
              = true := applyFieldOps_isSome rest _ hy
          rw [applyFieldOp_of_isSome _ v hr]
          exact ih (applyFieldOp x (FieldOp.writeIfAbsent v))

/-- Per-field reading of one command: the elementary operations the
command performs on the hash field (k, f). -/
def hashOps (c : RCmd) (k f : String) : List (FieldOp String) :=
  match c with
  | .hset k0 fields =>
      if k = k0 then (fields.filter (fun fv => fv.1 = f)).map (fun fv => FieldOp.write fv.2)
      else []
  | .hsetnx k0 f0 v => if k = k0 ∧ f = f0 then [FieldOp.writeIfAbsent v] else []
  | .set _ _ => []

/-- Per-key reading of one command on the scalar namespace. -/
def scalarOps (c : RCmd) (k : String) : List (FieldOp Nat) :=
  match c with
  | .set k0 n => if k = k0 then [FieldOp.write n] else []
  | _ => []

lemma foldl_setField_eval (k0 : String) (fields : List (String × String))
    (h : String → String → Option String) (k f : String) :
    (fields.foldl (fun g fv => setField g k0 fv.1 fv.2) h) k f =
      (if k = k0 then
        applyFieldOps ((fields.filter (fun fv => fv.1 = f)).map (fun fv => FieldOp.write fv.2))
          (h k f)
      else h k f) := by
  induction fields generalizing h with
  | nil => by_cases hk : k = k0 <;> simp [hk, applyFieldOps]
  | cons fv rest ih =>
      simp only [List.foldl_cons]
      rw [ih]
      by_cases hk : k = k0
      · by_cases hf : fv.1 = f
        · subst hf
          simp [hk, setField, List.filter_cons, applyFieldOps, applyFieldOp]
        · have hf' : ¬ f = fv.1 := fun he => hf he.symm
          simp [hk, hf, hf', setField, List.filter_cons]
      · simp [hk, setField]

lemma applyCmd_hashes (s : RStore) (c : RCmd) (k f : String) :
    (s.applyCmd c).hashes k f = applyFieldOps (hashOps c k f) (s.hashes k f) := by
  cases c with
  | hset k0 fields =>
      show (fields.foldl (fun h fv => setField h k0 fv.1 fv.2) s.hashes) k f = _
      rw [foldl_setField_eval]
      by_cases hk : k = k0 <;> simp [hk, hashOps, applyFieldOps]
  | hsetnx k0 f0 v =>
      show (if (s.hashes k0 f0).isSome then s.hashes else setField s.hashes k0 f0 v) k f = _
      by_cases hkf : k = k0 ∧ f = f0
      · obtain ⟨hk, hf⟩ := hkf
        subst hk; subst hf
        by_cases hs : (s.hashes k f).isSome
        · simp [hs, hashOps, applyFieldOps, applyFieldOp]
        · simp [hs, hashOps, applyFieldOps, applyFieldOp, setField]
      · have : hashOps (RCmd.hsetnx k0 f0 v) k f = [] := by simp [hashOps, hkf]
        rw [this]
        by_cases hs : (s.hashes k0 f0).isSome
        · simp [hs, applyFieldOps]
        · have hne : ¬ (k = k0 ∧ f = f0) := hkf
          simp [hs, applyFieldOps, setField, hne]
  | set k0 n =>
      simp [RStore.applyCmd, hashOps, applyFieldOps]

lemma applyCmd_scalars (s : RStore) (c : RCmd) (k : String) :
    (s.applyCmd c).scalars k = applyFieldOps (scalarOps c k) (s.scalars k) := by
  cases c with
  | hset k0 fields => simp [RStore.applyCmd, scalarOps, applyFieldOps]
  | hsetnx k0 f0 v => simp [RStore.applyCmd, scalarOps, applyFieldOps]
  | set k0 n =>
      by_cases hk : k = k0 <;>
        simp [RStore.applyCmd, scalarOps, hk, applyFieldOps, applyFieldOp]

/-- All elementary operations a pipeline performs on hash field (k, f),
in execution order. -/
def pipeHashOps (p : List RCmd) (k f : String) : List (FieldOp String) :=
  match p with
  | [] => []
  | c :: q => hashOps c k f ++ pipeHashOps q k f

/-- All elementary operations a pipeline performs on scalar key k. -/
def pipeScalarOps (p : List RCmd) (k : String) : List (FieldOp Nat) :=
  match p with
  | [] => []
  | c :: q => scalarOps c k ++ pipeScalarOps q k

lemma runPipe_hashes (p : List RCmd) (s : RStore) (k f : String) :
    (runPipe p s).hashes k f = applyFieldOps (pipeHashOps p k f) (s.hashes k f) := by
  induction p generalizing s with
  | nil => rfl
  | cons c q ih =>
      show (runPipe q (s.applyCmd c)).hashes k f = _
      rw [ih (s.applyCmd c), applyCmd_hashes, pipeHashOps, applyFieldOps_append]

lemma runPipe_scalars (p : List RCmd) (s : RStore) (k : String) :
    (runPipe p s).scalars k = applyFieldOps (pipeScalarOps p k) (s.scalars k) := by
  induction p generalizing s with
  | nil => rfl
  | cons c q ih =>
      show (runPipe q (s.applyCmd c)).scalars k = _
      rw [ih (s.applyCmd c), applyCmd_scalars, pipeScalarOps, applyFieldOps_append]

/-- Replaying any pipeline built from hset, hsetnx and set commands is
idempotent on the store. -/
lemma runPipe_idem (p : List RCmd) (s : RStore) :
    runPipe p (runPipe p s) = runPipe p s := by
  apply RStore.eq_of
  · funext k f
    rw [runPipe_hashes, runPipe_hashes]
    exact applyFieldOps_idem _ _
  · funext k
    rw [runPipe_scalars, runPipe_scalars]
    exact applyFieldOps_idem _ _

/-- Modelled from the spec (section 4.3; the click module providing
the row types is not among the sources): execution status of a
receipt row.  The binaries only compare it with success. -/
inductive ReceiptStatus where
  | success
  | failure
  | pending
  deriving DecidableEq

/-- Modelled from the spec: the kind of an action row; only equality
with FunctionCall is inspected (by the staking extractor). -/
inductive ActionKind where
  | functionCall
  | other
  deriving DecidableEq

/-- Modelled from the spec (section 4.3; the click module is not among
the sources): the fields of an action row that ft_red.rs reads. -/
structure ActionRow where
  status : ReceiptStatus
  action : ActionKind
  predecessor_id : String
  account_id : String
  method_name : Option String
  args_receiver_id : Option String
  deriving DecidableEq

/-- Modelled from the spec (section 4.3): the fields of an event row
that ft_red.rs reads. -/
structure EventRow where
  status : ReceiptStatus
  account_id : String
  event : Option String
  data_owner_id : Option String
  data_old_owner_id : Option String
  data_new_owner_id : Option String
  deriving DecidableEq

/-- Modelled from the spec (sections 3 and 6; decoding of the raw
block payload by extract_rows is out of the core scope): one decoded
log unit - the block height together with its action and event
rows. -/
structure BlockMsg where
  height : Nat
  actions : List ActionRow
  events : List EventRow
  deriving DecidableEq

def SAFE_OFFSET : Nat := 100

def LATEST_BLOCK_KEY : String := "meta:latest_block"

/-- Rust ends_with on strings, modelled as a suffix test on the
character list. -/
def strEndsWith (s suf : String) : Bool :=
  suf.data.isSuffixOf s.data

/-- Staking pool suffix test used by ft_red.rs (lines 135 and 152). -/
def isPoolId (s : String) : Bool :=
  strEndsWith s (".poolv1.near") || strEndsWith s (".pool.near")

/-- Insertion into a set of pairs, mirroring HashSet insert (membership
test, no duplicates, order irrelevant to the callers). -/
def setInsert (p : String × String) (l : List (String × String)) :
    List (String × String) :=
  if p ∈ l then l else p :: l

/-- Recognized FT method names (ft_red.rs lines 156-164). -/
def ftMethods : List String :=
  ["ft_transfer_call", "ft_transfer", "ft_mint", "ft_burn",
   "near_withdraw", "near_deposit", "deposit_and_stake"]

/-- Recognized NFT method names (ft_red.rs lines 207-215). -/
def nftMethods : List String :=
  ["nft_transfer_call", "nft_transfer", "nft_approve", "nft_revoke",
   "nft_revoke_all", "nft_mint", "nft_burn"]

/-- One action-loop iteration of extract_ft_pairs (ft_red.rs lines
147-173): skip non-success rows, skip staking-pool targets, and for a
recognized method insert (predecessor, token) and, when present,
(receiver, token). -/
def ftActionStep (pairs : List (String × String)) (a : ActionRow) :
    List (String × String) :=
  if a.status = ReceiptStatus.success then
    if isPoolId a.account_id then pairs
    else
      match a.method_name with
      | some m =>
          if m ∈ ftMethods then
            match a.args_receiver_id with
            | some r => setInsert (r, a.account_id)
                (setInsert (a.predecessor_id, a.account_id) pairs)
            | none => setInsert (a.predecessor_id, a.account_id) pairs
          else pairs
      | none => pairs
  else pairs

/-- One event-loop iteration of extract_ft_pairs (ft_red.rs lines
174-193). -/
def ftEventStep (pairs : List (String × String)) (e : EventRow) :
    List (String × String) :=
  if e.status = ReceiptStatus.success then
    match e.event with
    | some t =>
        if t ∈ (["ft_mint", "ft_burn"] : List String) then
          match e.data_owner_id with
          | some o => setInsert (o, e.account_id) pairs
          | none => pairs
        else if t = "ft_transfer" then
          match e.data_new_owner_id with
          | some n =>
              match e.data_old_owner_id with
              | some o => setInsert (o, e.account_id) (setInsert (n, e.account_id) pairs)
              | none => setInsert (n, e.account_id) pairs
          | none =>
              match e.data_old_owner_id with
              | some o => setInsert (o, e.account_id) pairs
              | none => pairs
        else pairs
    | none => pairs
  else pairs

/-- Translation of extract_ft_pairs (ft_red.rs lines 144-196). -/
def extract_ft_pairs (actions : List ActionRow) (events : List EventRow) :
    List (String × String) :=
  events.foldl ftEventStep (actions.foldl ftActionStep [])

/-- One action-loop iteration of extract_nft_pairs (ft_red.rs lines
201-224): same shape as the FT loop but with the NFT method table and
no staking-pool exclusion. -/
def nftActionStep (pairs : List (String × String)) (a : ActionRow) :
    List (String × String) :=
  if a.status = ReceiptStatus.success then
    match a.method_name with
    | some m =>
        if m ∈ nftMethods then
          match a.args_receiver_id with
          | some r => setInsert (r, a.account_id)
              (setInsert (a.predecessor_id, a.account_id) pairs)
          | none => setInsert (a.predecessor_id, a.account_id) pairs
        else pairs
    | none => pairs
  else pairs

/-- One event-loop iteration of extract_nft_pairs (ft_red.rs lines
225-244). -/
def nftEventStep (pairs : List (String × String)) (e : EventRow) :
    List (String × String) :=
  if e.status = ReceiptStatus.success then
    match e.event with
    | some t =>
        if t ∈ (["nft_mint", "nft_burn"] : List String) then
          match e.data_owner_id with
          | some o => setInsert (o, e.account_id) pairs
          | none => pairs
        else if t = "nft_transfer" then
          match e.data_new_owner_id with
          | some n =>
              match e.data_old_owner_id with
              | some o => setInsert (o, e.account_id) (setInsert (n, e.account_id) pairs)
              | none => setInsert (n, e.account_id) pairs
          | none =>
              match e.data_old_owner_id with
              | some o => setInsert (o, e.account_id) pairs
              | none => pairs
        else pairs
    | none => pairs
  else pairs

/-- Translation of extract_nft_pairs (ft_red.rs lines 198-247). -/
def extract_nft_pairs (actions : List ActionRow) (events : List EventRow) :
    List (String × String) :=
  events.foldl nftEventStep (actions.foldl nftActionStep [])

/-- One iteration of extract_staking_pairs (ft_red.rs lines 131-139). -/
def stakingStep (pairs : List (String × String)) (a : ActionRow) :
    List (String × String) :=
  if a.status = ReceiptStatus.success ∧ a.action = ActionKind.functionCall then
    if isPoolId a.account_id then
      setInsert (a.predecessor_id, a.account_id) pairs
    else pairs
  else pairs

/-- Translation of extract_staking_pairs (ft_red.rs lines 128-142). -/
def extract_staking_pairs (actions : List ActionRow) : List (String × String) :=
  actions.foldl stakingStep []

/-- Append a (field, value) pair to the entry of key in the to_update
map, creating the entry when absent - the entry/or_insert/push of
add_pairs_to_update (ft_red.rs lines 254-259). -/
def pushPair (toUpdate : List (String × List (String × String))) (key : String)
    (fv : String × String) : List (String × List (String × String)) :=
  match toUpdate with
  | [] => [(key, [fv])]
  | kv :: rest =>
      if kv.1 = key then (kv.1, kv.2 ++ [fv]) :: rest
      else kv :: pushPair rest key fv

/-- Translation of add_pairs_to_update (ft_red.rs lines 249-260): each
(account, token) pair becomes field token (with empty value) under key
"cat:account". -/
def add_pairs_to_update (cat : String) (pairs : List (String × String))
    (toUpdate : List (String × List (String × String))) :
    List (String × List (String × String)) :=
  pairs.foldl (fun m p => pushPair m (cat ++ ":" ++ p.1) (p.2, "")) toUpdate

/-- The to_update map built for one block (ft_red.rs lines 103-107). -/
def blockToUpdate (b : BlockMsg) : List (String × List (String × String)) :=
  add_pairs_to_update ("st") (extract_staking_pairs b.actions)
    (add_pairs_to_update ("nf") (extract_nft_pairs b.actions b.events)
      (add_pairs_to_update ("ft") (extract_ft_pairs b.actions b.events) []))

/-- The HSET commands for the batch data (ft_red.rs lines 114-116). -/
def dataCmds (toUpdate : List (String × List (String × String))) : List RCmd :=
  toUpdate.map (fun kv => RCmd.hset kv.1 kv.2)

/-- The commit pipeline of one batch (ft_red.rs lines 112-123): all
HSET data commands followed by the checkpoint SET, issued as one
request. -/
def commitPipe (toUpdate : List (String × List (String × String)))
    (blockHeight : Nat) : List RCmd :=
  dataCmds toUpdate ++ [RCmd.set LATEST_BLOCK_KEY blockHeight]

/-- Outcome of one attempt of the atomic commit round trip. -/
inductive AttemptOutcome where
  | ok
  | failed

/-- Modelled from the spec (sections 4.5 and 6; the redis_db
connection layer is not among the sources): a pipeline request is one
atomic command list - a successful round trip applies the whole
pipeline, a failed round trip applies nothing, and the with_retries
wrapper then reconnects and resends the same pipeline. -/
def attemptCommit (o : AttemptOutcome) (p : List RCmd) (s : RStore) : RStore :=
  match o with
  | .ok => runPipe p s
  | .failed => s

/-- Processing of one received block by listen_blocks (ft_red.rs lines
98-125): build the to_update map and commit it with the checkpoint in
one pipeline (the retry wrapper ends in a successful round trip). -/
def processBlock (s : RStore) (b : BlockMsg) : RStore :=
  runPipe (commitPipe (blockToUpdate b) b.height) s

/-- Translation of the listen_blocks loop over the received stream. -/
def listen_blocks (s : RStore) (msgs : List BlockMsg) : RStore :=
  msgs.foldl processBlock s

/-- The persisted checkpoint marker observed after each successful
commit of listen_blocks. -/
def markerTrace (s : RStore) : List BlockMsg → List (Option Nat)
  | [] => []
  | b :: rest =>
      (processBlock s b).scalars LATEST_BLOCK_KEY ::
        markerTrace (processBlock s b) rest

/-- The resume height computed by main (ft_red.rs lines 79-84): the
stored checkpoint when present, else first block height plus
SAFE_OFFSET. -/
def resumeHeight (firstBlockHeight : Nat) (checkpoint : Option Nat) : Nat :=
  checkpoint.getD (firstBlockHeight + SAFE_OFFSET)

/-- The startup resume check of main (ft_red.rs lines 86-91): none
models the panic (refusal to start), some r models starting with
resume height r. -/
def mainResumeCheck (firstBlockHeight : Nat) (checkpoint : Option Nat) :
    Option Nat :=
  let lastBlockHeight := resumeHeight firstBlockHeight checkpoint
  if firstBlockHeight + SAFE_OFFSET > lastBlockHeight then none
  else some lastBlockHeight

/-- The outcome of one xread call in the reader loop: a transient
connection failure, or one decoded entry with its stream id. -/
inductive ReadOutcome where
  | failure
  | success (id : String) (msg : BlockMsg)

/-- Observable effects of one iteration of the reader loop. -/
structure ReaderStepResult where
  cursor : String
  sent : Option BlockMsg
  sleptMs : Nat
  reconnected : Bool
  deriving DecidableEq

/-- One iteration of the start loop of ft_red.rs (lines 27-45): on a
read failure the loop logs, sleeps 1000 ms, reconnects and continues
with the same last_id; on success the entry is sent downstream and
only then last_id is advanced to the returned id. -/
def readerStep (lastId : String) : ReadOutcome → ReaderStepResult
  | .failure => ⟨lastId, none, 1000, true⟩
  | .success id msg => ⟨id, some msg, 0, false⟩

/-- The reader loop run over a finite list of read outcomes: final
cursor and the sequence of messages handed off downstream, in order. -/
def readerRun (lastId : String) : List ReadOutcome → String × List BlockMsg
  | [] => (lastId, [])
  | o :: rest =>
      let r := readerStep lastId o
      let next := readerRun r.cursor rest
      (next.1, r.sent.toList ++ next.2)

/-- The message carried by a successful read outcome. -/
def okMsg : ReadOutcome → Option BlockMsg
  | .failure => none
  | .success _ m => some m

/-- One row of the backfill input file: column 0 is the account id,
column 1 is the token id (balances_backfill.rs lines 25-26). -/
structure CsvRecord where
  account_id : String
  token_id : String
  deriving DecidableEq

/-- The pair string pushed for one input row (balances_backfill.rs
line 27): "token:account". -/
def pairString (r : CsvRecord) : String :=
  r.token_id ++ ":" ++ r.account_id

/-- State of the producer loop of start (balances_backfill.rs lines
22-36): the pending pairs accumulator and the batches sent so far. -/
def backfillStep (st : List String × List (List String)) (r : CsvRecord) :
    List String × List (List String) :=
  let pairs := st.1 ++ [pairString r]
  if pairs.length = 1000 then ([], st.2 ++ [pairs]) else (pairs, st.2)

/-- Translation of the producer start of balances_backfill.rs (lines
14-37) run over the whole input file: the list of batches handed to
the channel.  The loop ends when the reader is exhausted; there is no
flush of a pending partial batch after the loop. -/
def backfillBatches (records : List CsvRecord) : List (List String) :=
  (records.foldl backfillStep ([], [])).2

/-- Split of a character list at its first colon: the part before and
the part after, or none when there is no colon. -/
def splitOnceAux : List Char → Option (List Char × List Char)
  | [] => none
  | c :: rest =>
      if c = ':' then some ([], rest)
      else (splitOnceAux rest).map (fun p => (c :: p.1, p.2))

/-- Rust split_once at the first colon, as used on each pair string
(balances_backfill.rs line 82): the part before the first colon and
everything after it.  The backfill only calls it on strings it built
with a colon; the colon-free case, which panics in Rust, is modelled
as returning the whole string with an empty remainder. -/
def splitOnce (s : String) : String × String :=
  match splitOnceAux s.data with
  | some ab => (⟨ab.1⟩, ⟨ab.2⟩)
  | none => (s, "")

/-- Modelled from the spec (section 3, LookupTask; the rpc module is
not among the sources): the FtPair lookup task - the only variant
built by balances_backfill.rs (lines 84-88). -/
structure RpcTask where
  block_height : Option Nat
  token_id : String
  account_id : String
  deriving DecidableEq

/-- Modelled from the spec (section 3, LookupResult): the payload of a
present FtPair result - the fetched balance. -/
structure FtPairBalance where
  balance : Nat
  deriving DecidableEq

/-- Modelled from the spec (sections 3 and 4.4): a lookup result
paired 1:1 with the task that produced it; none means the task
legitimately has no current value. -/
structure RpcResultPair where
  task : RpcTask
  result : Option FtPairBalance
  deriving DecidableEq

/-- The tasks built from one batch of pair strings
(balances_backfill.rs lines 79-89). -/
def tasksOfPairs (pairs : List String) : List RpcTask :=
  pairs.map (fun pair =>
    let tp := splitOnce pair
    ⟨none, tp.1, tp.2⟩)

/-- The HSETNX command written for one present result
(balances_backfill.rs lines 110-115). -/
def balanceCmd (t : RpcTask) (r : FtPairBalance) : RCmd :=
  RCmd.hsetnx ("b:" ++ t.token_id) t.account_id (toString r.balance)

/-- The commit pipeline built by update_balances from the RPC results
(balances_backfill.rs lines 96-119): tasks whose result is absent are
skipped, every present result contributes its HSETNX command. -/
def update_balances_pipe (results : List RpcResultPair) : List RCmd :=
  results.foldl
    (fun pipe rp =>
      match rp.result with
      | none => pipe
      | some r => pipe ++ [balanceCmd rp.task r])
    []

lemma setInsert_nodup (p : String × String) (l : List (String × String))
    (h : l.Nodup) : (setInsert p l).Nodup := by
  by_cases hm : p ∈ l <;> simp [setInsert, hm, h]

lemma ftActionStep_nodup (pairs : List (String × String)) (a : ActionRow)
    (h : pairs.Nodup) : (ftActionStep pairs a).Nodup := by
  unfold ftActionStep
  split
  · split
    · exact h
    · split
      · split
        · split
          · exact setInsert_nodup _ _ (setInsert_nodup _ _ h)
          · exact setInsert_nodup _ _ h
        · exact h
      · exact h
  · exact h

lemma nftActionStep_nodup (pairs : List (String × String)) (a : ActionRow)
    (h : pairs.Nodup) : (nftActionStep pairs a).Nodup := by
  unfold nftActionStep
  split
  · split
    · split
      · split
        · exact setInsert_nodup _ _ (setInsert_nodup _ _ h)
        · exact setInsert_nodup _ _ h
      · exact h
    · exact h
  · exact h

lemma ftEventStep_nodup (pairs : List (String × String)) (e : EventRow)
    (h : pairs.Nodup) : (ftEventStep pairs e).Nodup := by
  unfold ftEventStep
  split
  · split
    · split
      · split
        · exact setInsert_nodup _ _ h
        · exact h
      · split
        · split
          · split
            · exact setInsert_nodup _ _ (setInsert_nodup _ _ h)
            · exact setInsert_nodup _ _ h
          · split
            · exact setInsert_nodup _ _ h
            · exact h
        · exact h
    · exact h
  · exact h

lemma nftEventStep_nodup (pairs : List (String × String)) (e : EventRow)
    (h : pairs.Nodup) : (nftEventStep pairs e).Nodup := by
  unfold nftEventStep
  split
  · split
    · split
      · split
        · exact setInsert_nodup _ _ h
        · exact h
      · split
        · split
          · split
            · exact setInsert_nodup _ _ (setInsert_nodup _ _ h)
            · exact setInsert_nodup _ _ h
          · split
            · exact setInsert_nodup _ _ h
            · exact h
        · exact h
    · exact h
  · exact h

lemma stakingStep_nodup (pairs : List (String × String)) (a : ActionRow)
    (h : pairs.Nodup) : (stakingStep pairs a).Nodup := by
  unfold stakingStep
  split
  · split
    · exact setInsert_nodup _ _ h
    · exact h
  · exact h

lemma foldl_nodup {α : Type}
    (step : List (String × String) → α → List (String × String))
    (hstep : ∀ p a, p.Nodup → (step p a).Nodup) (l : List α) :
    ∀ init : List (String × String), init.Nodup → (l.foldl step init).Nodup := by
  induction l with
  | nil => intro init h; exact h
  | cons a rest ih => intro init h; exact ih _ (hstep init a h)

lemma extract_ft_pairs_nodup (actions : List ActionRow) (events : List EventRow) :
    (extract_ft_pairs actions events).Nodup :=
  foldl_nodup ftEventStep ftEventStep_nodup events _
    (foldl_nodup ftActionStep ftActionStep_nodup actions [] List.nodup_nil)

lemma extract_nft_pairs_nodup (actions : List ActionRow) (events : List EventRow) :
    (extract_nft_pairs actions events).Nodup :=
  foldl_nodup nftEventStep nftEventStep_nodup events _
    (foldl_nodup nftActionStep nftActionStep_nodup actions [] List.nodup_nil)

lemma extract_staking_pairs_nodup (actions : List ActionRow) :
    (extract_staking_pairs actions).Nodup :=
  foldl_nodup stakingStep stakingStep_nodup actions [] List.nodup_nil

lemma marker_processBlock (s : RStore) (b : BlockMsg) :
    (processBlock s b).scalars LATEST_BLOCK_KEY = some b.height := by
  unfold processBlock commitPipe runPipe
  rw [List.foldl_append]
  simp [RStore.applyCmd]

lemma markerTrace_eq (s : RStore) (msgs : List BlockMsg) :
    markerTrace s msgs = msgs.map (fun b => some b.height) := by
  induction msgs generalizing s with
  | nil => rfl
  | cons b rest ih =>
      unfold markerTrace
      rw [marker_processBlock, ih, List.map_cons]

lemma hashes_runPipe_concat_set (p : List RCmd) (k : String) (n : Nat)
    (s : RStore) :
    (runPipe (p ++ [RCmd.set k n]) s).hashes = (runPipe p s).hashes := by
  unfold runPipe
  rw [List.foldl_append]
  rfl

lemma update_pipe_foldl (results : List RpcResultPair) (acc : List RCmd) :
    results.foldl
        (fun pipe rp =>
          match rp.result with
          | none => pipe
          | some r => pipe ++ [balanceCmd rp.task r])
        acc
      = acc ++ results.filterMap (fun rp => rp.result.map (balanceCmd rp.task)) := by
  induction results generalizing acc with
  | nil => simp
  | cons rp rest ih =>
      cases hr : rp.result with
      | none => simp [hr, List.filterMap_cons, ih]
      | some r => simp [hr, List.filterMap_cons, ih]

lemma filterMap_balance_filter (results : List RpcResultPair) :
    (results.filter (fun rp => rp.result.isSome)).filterMap
        (fun rp => rp.result.map (balanceCmd rp.task))
      = results.filterMap (fun rp => rp.result.map (balanceCmd rp.task)) := by
  induction results with
  | nil => rfl
  | cons rp rest ih => cases hr : rp.result <;> simp [List.filter_cons, hr, ih]

lemma ftActionStep_pool (pairs : List (String × String)) (a : ActionRow)
    (hpool : isPoolId a.account_id = true) : ftActionStep pairs a = pairs := by
  unfold ftActionStep
  by_cases hs : a.status = ReceiptStatus.success <;> simp [hs, hpool]

/-- Concrete inputs used by the claim theorems below. -/
def c8Action : ActionRow :=
  ⟨.success, .functionCall, "alice.near", "usdc.near", some ("ft_transfer"),
    some ("bob.near")⟩

def c8FailedAction : ActionRow :=
  ⟨.failure, .functionCall, "alice.near", "usdc.near", some ("ft_transfer"),
    some ("bob.near")⟩

def dupAction : ActionRow :=
  ⟨.success, .functionCall, "alice.near", "usdc.near", some ("ft_transfer"), none⟩

def poolNftAction : ActionRow :=
  ⟨.success, .functionCall, "alice.near", "staking.pool.near",
    some ("nft_transfer"), none⟩

def poolFtAction : ActionRow :=
  ⟨.success, .functionCall, "alice.near", "vote.pool.near",
    some ("ft_transfer"), none⟩

def c3Record : CsvRecord := ⟨"alice.near", "usdc.near"⟩

def dupPairs : List String := ["usdc.near:alice.near", "usdc.near:alice.near"]

def dupResults : List RpcResultPair :=
  (tasksOfPairs dupPairs).map (fun t => ⟨t, some ⟨5⟩⟩)

def blkA : BlockMsg := ⟨5, [], []⟩

def blkB : BlockMsg := ⟨7, [], []⟩

def emptyStore : RStore := ⟨fun _ _ => none, fun _ => none⟩

/-- C1: listen_blocks commits every processed batch as one single pipeline
request whose last command is the checkpoint SET: a failed round trip
applies nothing at all (the marker included), and a successful round trip
both applies the batch's data mutations and sets the marker to the batch
height in the same atomic request - the marker is never advanced before or
separately from the data it covers. -/
theorem c1_atomic_commit (u : List (String × List (String × String)))
    (n : Nat) (s : RStore) :
    (commitPipe u n).getLast? = some (RCmd.set LATEST_BLOCK_KEY n) ∧
    attemptCommit AttemptOutcome.failed (commitPipe u n) s = s ∧
    (attemptCommit AttemptOutcome.ok (commitPipe u n) s).scalars LATEST_BLOCK_KEY
      = some n ∧
    (attemptCommit AttemptOutcome.ok (commitPipe u n) s).hashes
      = (runPipe (dataCmds u) s).hashes := by
  refine ⟨?_, rfl, ?_, ?_⟩
  · simp [commitPipe]
  · show (runPipe (commitPipe u n) s).scalars LATEST_BLOCK_KEY = some n
    unfold commitPipe runPipe
    rw [List.foldl_append]
    simp [RStore.applyCmd]
  · exact hashes_runPipe_concat_set _ _ _ _

/-- C2 counterexample: the claim "the system refuses to start exactly when
H - R is below the safety margin" (H the height the startup reads from the
log, R the requested resume height) is false on the code in both
directions: with H = 1000 and checkpoint R = 50 the margin condition
H - R < 100 does not hold, yet the code refuses; with H = 0 and
checkpoint R = 1000 the condition H - R < 100 holds, yet the code
starts. -/
theorem c2_resume_check_counterexample :
    (mainResumeCheck 1000 (some 50) = none ∧
      (100 : Int) ≤ (1000 : Int) - (50 : Int)) ∧
    (mainResumeCheck 0 (some 1000) = some 1000 ∧
      (0 : Int) - (1000 : Int) < (100 : Int)) := by
  decide

/-- C2 (amended): the startup check compares the resume height against the
first (oldest) height the log returns, not against the log head: it
refuses to start exactly when a stored checkpoint r exists with
r < firstBlockHeight + SAFE_OFFSET; otherwise it starts and processing
resumes from the checkpoint (or from firstBlockHeight + SAFE_OFFSET when
no checkpoint exists, which never refuses). -/
theorem c2_resume_check_amended (F : Nat) (c : Option Nat) :
    (mainResumeCheck F c = none ↔ ∃ r, c = some r ∧ r < F + SAFE_OFFSET) ∧
    (mainResumeCheck F c = none ∨
      (mainResumeCheck F c = some (resumeHeight F c) ∧
        F + SAFE_OFFSET ≤ resumeHeight F c)) := by
  cases c with
  | none =>
      have he : mainResumeCheck F none = some (F + SAFE_OFFSET) := by
        unfold mainResumeCheck resumeHeight
        simp
      constructor
      · constructor
        · intro h
          rw [he] at h
          cases h
        · rintro ⟨r, hr, _⟩
          cases hr
      · right
        refine ⟨?_, ?_⟩
        · rw [he]
          unfold resumeHeight
          simp
        · unfold resumeHeight
          simp
  | some r =>
      by_cases hlt : r < F + SAFE_OFFSET
      · have he : mainResumeCheck F (some r) = none := by
          unfold mainResumeCheck resumeHeight
          simp only [Option.getD_some]
          rw [if_pos (by omega)]
        exact ⟨⟨fun _ => ⟨r, rfl, hlt⟩, fun _ => he⟩, Or.inl he⟩
      · have he : mainResumeCheck F (some r) = some r := by
          unfold mainResumeCheck resumeHeight
          simp only [Option.getD_some]
          rw [if_neg (by omega)]
        constructor
        · constructor
          · intro h
            rw [he] at h
            cases h
          · rintro ⟨r', hr', hlt'⟩
            have : r' = r := by
              cases hr'
              rfl
            subst this
            exact absurd hlt' hlt
        · right
          refine ⟨?_, by unfold resumeHeight; simp; omega⟩
          rw [he]
          unfold resumeHeight
          simp

/-- C2 witness for the amended theorem: a checkpoint 50 with first log
height 0 is within the safety margin, and the startup refuses. -/
theorem c2_resume_check_amended_witness : mainResumeCheck 0 (some 50) = none :=
  (c2_resume_check_amended 0 (some 50)).1.mpr ⟨50, rfl, by decide⟩

/-- C3 (code-bug evaluation): the backfill producer reads its single-row
input file but never enqueues the trailing partial batch, so the row is
never handed to the consumer - the run sends no batch at all, although the
claim (and the spec, "No entry is ever dropped") requires every record to
reach the consumer eventually. -/
theorem c3_trailing_record_dropped : backfillBatches [c3Record] = [] := by
  decide

/-- C4: over any sequence of committed batches delivered in log order
(non-decreasing block heights), the persisted checkpoint marker after each
successful commit equals that batch's block height - the highest log
position the one-block batch covers - and the sequence of persisted
markers is non-decreasing. -/
theorem c4_checkpoint_monotone (s : RStore) (msgs : List BlockMsg)
    (hord : List.Chain' (fun a b => a.height ≤ b.height) msgs) :
    markerTrace s msgs = msgs.map (fun b => some b.height) ∧
    List.Chain' (fun x y : Option Nat => x.getD 0 ≤ y.getD 0)
      (markerTrace s msgs) := by
  refine ⟨markerTrace_eq s msgs, ?_⟩
  rw [markerTrace_eq, List.chain'_map]
  simpa using hord

/-- C4 witness: two blocks of heights 5 and 7 committed from the empty
store. -/
theorem c4_checkpoint_monotone_witness :
    markerTrace emptyStore [blkA, blkB] = [blkA, blkB].map (fun b => some b.height) ∧
    List.Chain' (fun x y : Option Nat => x.getD 0 ≤ y.getD 0)
      (markerTrace emptyStore [blkA, blkB]) :=
  c4_checkpoint_monotone emptyStore [blkA, blkB]
    (by
      rw [List.chain'_cons]
      exact ⟨by decide, List.chain'_singleton _⟩)

/-- C5: committing the same batch's mutation set twice yields the same
final store state as committing it once, both for the ft_red commit
pipeline (set-or-overwrite HSET presence writes plus the checkpoint SET)
and for the backfill commit pipeline (set-if-absent HSETNX balance
writes). -/
theorem c5_idempotent_replay (u : List (String × List (String × String)))
    (n : Nat) (results : List RpcResultPair) (s : RStore) :
    runPipe (commitPipe u n) (runPipe (commitPipe u n) s)
      = runPipe (commitPipe u n) s ∧
    runPipe (update_balances_pipe results)
        (runPipe (update_balances_pipe results) s)
      = runPipe (update_balances_pipe results) s :=
  ⟨runPipe_idem _ _, runPipe_idem _ _⟩

/-- C6 counterexample: in the backfill, a batch whose input contains the
same (token, account) pair twice produces a commit pipeline that contains
the corresponding set-if-absent mutation twice, not exactly once - the
backfill does not deduplicate its input. -/
theorem c6_backfill_duplicate_counterexample :
    (update_balances_pipe dupResults).count
        (RCmd.hsetnx ("b:usdc.near") ("alice.near") ("5")) = 2 := by
  decide

/-- C6 (amended): in the extractor-driven pipeline the per-batch pair sets
are deduplicated - each of the three extractors returns a duplicate-free
pair list, and a pair implied by several source rows appears exactly once
(shown on a concrete two-row batch) - while the backfill commit may
contain the same pair several times when the input repeats it (its
mutations are idempotent set-if-absent writes). -/
theorem c6_dedup_amended (actions : List ActionRow) (events : List EventRow) :
    (extract_ft_pairs actions events).Nodup ∧
    (extract_nft_pairs actions events).Nodup ∧
    (extract_staking_pairs actions).Nodup ∧
    (extract_ft_pairs [dupAction, dupAction] []).count
      ("alice.near", "usdc.near") = 1 :=
  ⟨extract_ft_pairs_nodup actions events, extract_nft_pairs_nodup actions events,
    extract_staking_pairs_nodup actions, by decide⟩

/-- C7 counterexample: the NFT extractor has no staking-pool suffix
exclusion - a successful action row whose target ends with ".pool.near"
and whose method is in the NFT method table does emit a pair. -/
theorem c7_nft_pool_counterexample :
    isPoolId poolNftAction.account_id = true ∧
    poolNftAction.method_name = some ("nft_transfer") ∧
    ("alice.near", "staking.pool.near") ∈ extract_nft_pairs [poolNftAction] [] := by
  decide

/-- C7 (amended): only the fungible-token extractor excludes action rows
whose target matches a staking-pool suffix - such a row contributes no
pair to extract_ft_pairs even if its method name is recognized; the
non-fungible-token extractor applies no such exclusion. -/
theorem c7_pool_excluded_ft (a : ActionRow) (actions : List ActionRow)
    (events : List EventRow) (hpool : isPoolId a.account_id = true) :
    extract_ft_pairs (a :: actions) events = extract_ft_pairs actions events := by
  unfold extract_ft_pairs
  rw [List.foldl_cons, ftActionStep_pool _ _ hpool]

/-- C7 witness: a successful ft_transfer row targeting vote.pool.near is
excluded from the FT extraction. -/
theorem c7_pool_excluded_ft_witness :
    isPoolId poolFtAction.account_id = true ∧
    extract_ft_pairs [poolFtAction] [] = extract_ft_pairs [] [] :=
  ⟨by decide, c7_pool_excluded_ft poolFtAction [] [] (by decide)⟩

/-- C8: one successful ft_transfer action with predecessor alice.near,
target usdc.near and args receiver bob.near yields exactly the pair set
containing (alice.near, usdc.near) and (bob.near, usdc.near); the same
action with a non-success status yields the empty set. -/
theorem c8_concrete_extraction :
    (extract_ft_pairs [c8Action] []).toFinset =
      ({("alice.near", "usdc.near"), ("bob.near", "usdc.near")} :
        Finset (String × String)) ∧
    extract_ft_pairs [c8FailedAction] [] = [] := by
  constructor <;> decide

/-- C9: on a transient read failure the reader loop does not terminate
the stream and does not advance its cursor - it records the failure
(fixed 1000 ms pause, reconnect), retries from the same cursor, and a
failure iteration is observationally identical to skipping straight to
the next read; the cursor advances to the returned id only on a
successful read, after the entry is handed off downstream, and the
messages handed off are exactly the successfully read entries in
order - none is skipped because of failures. -/
theorem c9_reader_retry :
    (∀ c, readerStep c ReadOutcome.failure = ⟨c, none, 1000, true⟩) ∧
    (∀ c id m, readerStep c (ReadOutcome.success id m) = ⟨id, some m, 0, false⟩) ∧
    (∀ c outs, readerRun c (ReadOutcome.failure :: outs) = readerRun c outs) ∧
    (∀ c outs, (readerRun c outs).2 = outs.filterMap okMsg) := by
  refine ⟨fun c => rfl, fun c id m => rfl, fun c outs => ?_, fun c outs => ?_⟩
  · simp [readerRun, readerStep]
  · induction outs generalizing c with
    | nil => rfl
    | cons o rest ih =>
        cases o <;> simp [readerRun, readerStep, okMsg, ih]

/-- C10: the backfill commit skips exactly the lookup tasks whose result
is absent - the pipeline contains one set-if-absent mutation per present
result, in order, and nothing for absent results, so absence is not an
error and all other results in the batch are committed normally. -/
theorem c10_absent_results_skipped (results : List RpcResultPair) :
    update_balances_pipe results =
      results.filterMap (fun rp => rp.result.map (balanceCmd rp.task)) ∧
    update_balances_pipe results =
      update_balances_pipe (results.filter (fun rp => rp.result.isSome)) := by
  have h1 : update_balances_pipe results =
      results.filterMap (fun rp => rp.result.map (balanceCmd rp.task)) := by
    unfold update_balances_pipe
    rw [update_pipe_foldl]
    simp
  have h2 : update_balances_pipe (results.filter (fun rp => rp.result.isSome)) =
      (results.filter (fun rp => rp.result.isSome)).filterMap
        (fun rp => rp.result.map (balanceCmd rp.task)) := by
    unfold update_balances_pipe
    rw [update_pipe_foldl]
    simp
  exact ⟨h1, by rw [h1, h2, filterMap_balance_filter]⟩

end Indexer
